import Mathlib

/-
Verification development for the QCM-Trainer repository.

The repository is a Streamlit quiz application in two variants:
`QCM.py` (the original linear menu/lesson/mode/quiz flow) and `test.py`
(the "improved" variant with exam sampling, timer, stats and authoring).

This file shallowly embeds the functional core of both variants:
  * the per-question scorer (`record_score` in both files),
  * the stratified exam sampler (`build_exam` in test.py),
  * the quiz-session navigation state machine
    (`reset_quiz` / `record_score` / `next_q` / `prev_q` in QCM.py,
     `move_question` in test.py),
  * the lesson loader (`load_qcm` in both files) over an abstract
    file-store model,
  * the module lister (`get_modules` in both files).

Randomness (`random.shuffle`, `random.sample`) is modelled by explicit
function parameters together with their documented contracts; Python
`while` loops are modelled with an explicit fuel parameter, where a
`none`/`.nonTermination` result for every fuel value means the Python
loop never terminates.  Python float arithmetic inside `round(...)` is
idealised as exact rational arithmetic with round-half-to-even
(`pyRound`); the concrete inputs used in the theorems below are all
cases where the float and rational computations agree.
-/

/-- Exceptions that the embedded Python fragments can raise. -/
inductive PyError where
  | fileNotFound
  | jsonDecodeError
  | zeroDivisionError
  deriving DecidableEq, Repr

/-!
## Scorer

`QCM.py`, `record_score` (lines 169-180):

    good = set(q["correct"])
    user = {i for i in range(len(q["choices"])) if checkbox(idx, i)}
    if user == good:       score = 1.0
    elif user - good:      score = 0.0
    else:                  score = len(user & good) / len(good)

`test.py`, `record_score` (lines 249-264) is identical except that the
last line reads `len(user & good) / len(good) if good else 0.0`.
-/

/-- The score value computed by `record_score` in `QCM.py` (lines 173-178).
In Lean, `q / 0 = 0` on `ℚ`; the division branch is only reachable with
`good` non-empty (see `score_py_eq_ok`), so this convention is never
engaged. -/
def scoreVal (good user : Finset ℕ) : ℚ :=
  if user = good then 1
  else if (user \ good).Nonempty then 0
  else ((user ∩ good).card : ℚ) / (good.card : ℚ)

/-- The same `QCM.py` scorer with Python's `ZeroDivisionError` made
explicit: `len(user & good) / len(good)` raises when `len(good) = 0`. -/
def score_py (good user : Finset ℕ) : Except PyError ℚ :=
  if user = good then .ok 1
  else if (user \ good).Nonempty then .ok 0
  else if good.card = 0 then .error .zeroDivisionError
  else .ok (((user ∩ good).card : ℚ) / (good.card : ℚ))

/-- The score value computed by `record_score` in `test.py` (lines 256-263):
the division is guarded by `if good else 0.0`. -/
def score_test (good user : Finset ℕ) : ℚ :=
  if user = good then 1
  else if (user \ good).Nonempty then 0
  else if good.Nonempty then ((user ∩ good).card : ℚ) / (good.card : ℚ)
  else 0

/-- In the third branch of the scorer, the selection is a strict subset of
the correct set, so the correct set is non-empty. -/
lemma third_branch_nonempty {good user : Finset ℕ}
    (hne : user ≠ good) (hsub : user \ good = ∅) : good ≠ ∅ := by
  intro h
  subst h
  rw [Finset.sdiff_empty] at hsub
  exact hne hsub

/-- `QCM.py`'s scorer never actually raises `ZeroDivisionError`: the
division branch requires the selection to be a strict subset of the
correct set, which forces the correct set non-empty. -/
lemma score_py_eq_ok (good user : Finset ℕ) :
    score_py good user = .ok (scoreVal good user) := by
  unfold score_py scoreVal
  by_cases h1 : user = good
  · simp [h1]
  · by_cases h2 : (user \ good).Nonempty
    · simp [h1, h2]
    · have hsd : user \ good = ∅ := Finset.not_nonempty_iff_eq_empty.mp h2
      have hg : good ≠ ∅ := third_branch_nonempty h1 hsd
      have hc : good.card ≠ 0 := by
        simpa [Finset.card_eq_zero] using hg
      simp [h1, h2, hc]

/-- `test.py`'s scorer computes the same value as `QCM.py`'s: the extra
`if good else 0.0` guard only fires in an unreachable configuration. -/
lemma score_test_eq_scoreVal (good user : Finset ℕ) :
    score_test good user = scoreVal good user := by
  unfold score_test scoreVal
  by_cases h1 : user = good
  · simp [h1]
  · by_cases h2 : (user \ good).Nonempty
    · simp [h1, h2]
    · have hsd : user \ good = ∅ := Finset.not_nonempty_iff_eq_empty.mp h2
      have hg : good.Nonempty :=
        Finset.nonempty_iff_ne_empty.mpr (third_branch_nonempty h1 hsd)
      simp [h1, h2, hg]

/-!
## Exam sampler (`build_exam` in test.py, lines 158-200)

    lessons = get_jsons(module)
    banks = {lf: load_qcm(...) for lf in lessons}
    if len(banks) == 1:
        bank = next(iter(banks.values())); random.shuffle(bank)
        return bank[:min(target, len(bank))]
    min_q, max_q = (1, 5) if target <= 20 else (2, 10)
    sizes = {lf: len(b) ...}; total_size = sum(sizes.values())
    quotas = {lf: max(min_q, min(max_q, round(sizes[lf]/total_size*target)))}
    while sum(quotas.values()) < target:
        for lf in quotas:
            if quotas[lf] < min(max_q, sizes[lf]):
                quotas[lf] += 1
                if sum(quotas.values()) == target: break
    while sum(quotas.values()) > target:
        for lf in quotas:
            if quotas[lf] > min_q:
                quotas[lf] -= 1
                if sum(quotas.values()) == target: break
    exam = []; for lf, n in quotas.items(): exam.extend(random.sample(banks[lf], n))
    random.shuffle(exam); return exam

The dict is keyed by lesson file names and iterated in insertion order,
so it is modelled as a list of banks.  The two `while` loops get a fuel
parameter: a `none` result for every fuel means the Python loop spins
forever.  `random.shuffle` and `random.sample` are the parameters
`shuf` and `samp`; `samp l n = none` models the `ValueError` that
`random.sample` raises when `n` exceeds the population size.
-/

/-- Python 3 `round` on an exact rational `a / b` (banker's rounding:
round half to even).  Only used with `b ≠ 0`. -/
def pyRound (a b : ℕ) : ℕ :=
  let q := a / b
  let r := a % b
  if 2 * r < b then q
  else if b < 2 * r then q + 1
  else if q % 2 = 0 then q else q + 1

/-- One `for lf in quotas` pass of the quota-growing loop.  The first
argument of each pair is the lesson's current quota, the second its bank
size; `total` is the current sum of all quotas (the Python code recomputes
`sum(quotas.values())` after each increment and `break`s out of the `for`
the instant it hits `target`). -/
def growPassGo (target maxQ : ℕ) : List (ℕ × ℕ) → ℕ → List ℕ
  | [], _ => []
  | (q, sz) :: rest, total =>
    if total = target then q :: growPassGo target maxQ rest total
    else if q < min maxQ sz then (q + 1) :: growPassGo target maxQ rest (total + 1)
    else q :: growPassGo target maxQ rest total

def growPass (target maxQ : ℕ) (sizes quotas : List ℕ) : List ℕ :=
  growPassGo target maxQ (quotas.zip sizes) quotas.sum

/-- The `while sum(quotas.values()) < target` loop, with fuel.  A `none`
result for every fuel value means the Python loop never terminates. -/
def growLoop (target maxQ : ℕ) (sizes : List ℕ) : ℕ → List ℕ → Option (List ℕ)
  | 0, quotas => if quotas.sum < target then none else some quotas
  | fuel + 1, quotas =>
    if quotas.sum < target then
      growLoop target maxQ sizes fuel (growPass target maxQ sizes quotas)
    else some quotas

/-- One `for lf in quotas` pass of the quota-shrinking loop. -/
def shrinkPassGo (target minQ : ℕ) : List ℕ → ℕ → List ℕ
  | [], _ => []
  | q :: rest, total =>
    if total = target then q :: shrinkPassGo target minQ rest total
    else if minQ < q then (q - 1) :: shrinkPassGo target minQ rest (total - 1)
    else q :: shrinkPassGo target minQ rest total

def shrinkPass (target minQ : ℕ) (quotas : List ℕ) : List ℕ :=
  shrinkPassGo target minQ quotas quotas.sum

/-- The `while sum(quotas.values()) > target` loop, with fuel. -/
def shrinkLoop (target minQ : ℕ) : ℕ → List ℕ → Option (List ℕ)
  | 0, quotas => if target < quotas.sum then none else some quotas
  | fuel + 1, quotas =>
    if target < quotas.sum then
      shrinkLoop target minQ fuel (shrinkPass target minQ quotas)
    else some quotas

/-- `for lf, n in quotas.items(): exam.extend(random.sample(banks[lf], n))`:
sample from each bank in order, concatenating; `none` if any single
`random.sample` call raises `ValueError`. -/
def sampleAll (samp : List α → ℕ → Option (List α)) :
    List (List α) → List ℕ → Option (List α)
  | [], _ => some []
  | _, [] => some []
  | b :: bs, n :: ns =>
    match samp b n, sampleAll samp bs ns with
    | some r, some rest => some (r ++ rest)
    | _, _ => none

/-- Failure modes of `build_exam`:
`zeroDivision` is the Python `ZeroDivisionError` from
`sizes[lf] / total_size` when every bank is empty; `valueError` is the
`ValueError` from `random.sample(bank, n)` with `n > len(bank)`;
`nonTermination` marks the fuel running out — a result of
`.error .nonTermination` at every fuel means the Python `while` loop
spins forever. -/
inductive ExamErr where
  | zeroDivision
  | valueError
  | nonTermination
  deriving DecidableEq, Repr

/-- Shallow embedding of `build_exam` (test.py lines 158-200), generic in
the question type, parametrised by the shuffler `shuf`, the sampler
`samp` and fuel for the two adjustment loops. -/
def build_exam (shuf : List α → List α) (samp : List α → ℕ → Option (List α))
    (banks : List (List α)) (target fuel : ℕ) : Except ExamErr (List α) :=
  match banks with
  | [bank0] =>
    let bank := shuf bank0
    .ok (bank.take (min target bank.length))
  | _ =>
    let minQ : ℕ := if target ≤ 20 then 1 else 2
    let maxQ : ℕ := if target ≤ 20 then 5 else 10
    let sizes := banks.map List.length
    let totalSize := sizes.sum
    if banks.isEmpty = false ∧ totalSize = 0 then .error .zeroDivision
    else
      let quotas := sizes.map fun s => max minQ (min maxQ (pyRound (s * target) totalSize))
      match growLoop target maxQ sizes fuel quotas with
      | none => .error .nonTermination
      | some q1 =>
        match shrinkLoop target minQ fuel q1 with
        | none => .error .nonTermination
        | some q2 =>
          match sampleAll samp banks q2 with
          | none => .error .valueError
          | some exam => .ok (shuf exam)

/-- Deterministic instance of the `random.sample` contract: take the
first `n` elements, failing exactly when `n` exceeds the population. -/
def takeSample (l : List α) (n : ℕ) : Option (List α) :=
  if n ≤ l.length then some (l.take n) else none

lemma takeSample_spec (l : List α) (n : ℕ) (h : n ≤ l.length) :
    ∃ r, takeSample l n = some r ∧ r.length = n ∧ r.Subperm l := by
  refine ⟨l.take n, by simp [takeSample, h], ?_, (List.take_sublist n l).subperm⟩
  simpa using h

lemma takeSample_none (l : List α) (n : ℕ) (h : l.length < n) :
    takeSample l n = none := by
  simp [takeSample]
  omega

/-- If a pass of the growing loop changes nothing and the sum is below
target, the loop diverges: it returns `none` at every fuel. -/
lemma growLoop_stall (target maxQ : ℕ) (sizes quotas : List ℕ)
    (hpass : growPass target maxQ sizes quotas = quotas)
    (hlt : quotas.sum < target) :
    ∀ fuel, growLoop target maxQ sizes fuel quotas = none := by
  intro fuel
  induction fuel with
  | zero => simp [growLoop, hlt]
  | succ f ih => simp [growLoop, hlt, hpass, ih]

/-!
## Quiz session state machine (`QCM.py`, lines 52-64 and 166-194)

The relevant Streamlit session state is
`order / idx / scores / show / finished`; `idx` is an `int` that starts
at `-1` ("not yet begun") and is incremented past `total` on finishing.
The per-question checkbox states `chk_{idx}_{i}` are modelled by the
parameter `chk : ℕ → ℕ → Bool`; holding `chk` fixed across operations
models "no intervening `setAnswer`".
-/

/-- One question record of a lesson file. -/
structure Question where
  question : String
  choices : List String
  correct : List ℕ
  deriving DecidableEq, Repr

/-- The quiz-relevant part of `st.session_state` in `QCM.py`.
`showFlag` models the `show` key (a Lean keyword). -/
structure QState where
  order : List ℕ
  idx : ℤ
  scores : List (Option ℚ)
  showFlag : Bool
  finished : Bool
  deriving DecidableEq, Repr

/-- `reset_quiz` (QCM.py lines 52-64): the drawn `order` (a random
permutation in "Aléatoire" mode, the identity in "Ordre fixe" mode) is a
parameter. -/
def reset_quiz (order : List ℕ) (total : ℕ) : QState :=
  { order := order
    idx := -1
    scores := List.replicate total none
    showFlag := false
    finished := false }

/-- `current_q` (QCM.py line 166-167): `qcm[order[idx]]`.  Out-of-range
access (a Python `IndexError`) is modelled by `getD`; all operations
below only read it at in-range indices. -/
def current_q (qcm : List Question) (order : List ℕ) (i : ℕ) : Question :=
  qcm.getD (order.getD i 0) ⟨"", [], []⟩

/-- The score `record_score` computes at order-position `i`:
`good = set(q["correct"])`, `user = {i for i in range(len(q["choices"]))
if chk}`. -/
def scoreAt (qcm : List Question) (chk : ℕ → ℕ → Bool) (order : List ℕ)
    (i : ℕ) : ℚ :=
  scoreVal (current_q qcm order i).correct.toFinset
    ((Finset.range (current_q qcm order i).choices.length).filter
      (fun j => chk i j = true))

/-- `record_score` (QCM.py lines 169-180) as a state transformer:
computes the current question's score and stores it at
`scores[idx]`.  (`scoreVal` is justified against the raising Python
semantics by `score_py_eq_ok`.) -/
def record_score (qcm : List Question) (chk : ℕ → ℕ → Bool) (st : QState) :
    QState :=
  { st with
    scores := st.scores.set st.idx.toNat (some (scoreAt qcm chk st.order st.idx.toNat)) }

/-- `next_q` (QCM.py lines 182-188): score the current question when the
cursor is in range, advance, clear `show`, finish when past the end. -/
def next_q (qcm : List Question) (chk : ℕ → ℕ → Bool) (st : QState) : QState :=
  let total : ℤ := qcm.length
  let st1 := if 0 ≤ st.idx ∧ st.idx < total then record_score qcm chk st else st
  let st2 := { st1 with idx := st1.idx + 1, showFlag := false }
  if total ≤ st2.idx then { st2 with finished := true } else st2

/-- `prev_q` (QCM.py lines 190-193). -/
def prev_q (st : QState) : QState :=
  if 0 < st.idx then { st with idx := st.idx - 1, showFlag := true } else st

/-- `final = sum(s for s in st.session_state.scores if s is not None)`
(QCM.py line 197). -/
def final_score (st : QState) : ℚ :=
  (st.scores.filterMap id).sum

/-!
## Lesson loader

`QCM.py` `load_qcm` (lines 24-26) opens the file and calls `json.load`
with no further validation; `test.py` `load_qcm` (lines 134-144)
wraps the same in `try/except` and returns `[]` on any exception.

The file store is a function `fs : String → Option (Option JValue)`:
`none` = the path does not exist (`FileNotFoundError` on `open`),
`some none` = the file exists but is not valid JSON
(`json.JSONDecodeError`), `some (some v)` = the file parses to `v`.
-/

/-- A parsed JSON value. -/
inductive JValue where
  | null
  | bool (b : Bool)
  | num (n : ℤ)
  | str (s : String)
  | arr (elems : List JValue)
  | obj (fields : List (String × JValue))

/-- `load_qcm` (QCM.py lines 24-26): `open` + `json.load`, propagating
both exceptions and performing no schema validation. -/
def load_qcm (fs : String → Option (Option JValue)) (path : String) :
    Except PyError JValue :=
  match fs path with
  | none => .error .fileNotFound
  | some none => .error .jsonDecodeError
  | some (some v) => .ok v

/-- `load_qcm` (test.py lines 134-144): returns the parsed value, or the
empty list on any exception. -/
def load_qcm_test (fs : String → Option (Option JValue)) (path : String) :
    JValue :=
  match fs path with
  | none => .arr []
  | some none => .arr []
  | some (some v) => v

/-- Whether a JSON value is an object with a string `question`, an array
of strings `choices` and an array of ints `correct`.  This is the
Question schema as the specification describes it; neither source
variant implements any such check — the definition exists only to state
that the loaders do not perform it. -/
def isQuestionObj : JValue → Bool
  | .obj fields =>
    (match fields.lookup "question" with
     | some (.str _) => true
     | _ => false)
    && (match fields.lookup "choices" with
        | some (.arr cs) => cs.all fun c => match c with | .str _ => true | _ => false
        | _ => false)
    && (match fields.lookup "correct" with
        | some (.arr cs) => cs.all fun c => match c with | .num _ => true | _ => false
        | _ => false)
  | _ => false

/-- The specification's well-formedness condition on a lesson file's
content: a JSON array of Question-schema objects.  Again present only to
state that the source performs no such validation. -/
def isWellFormedBank : JValue → Bool
  | .arr elems => elems.all isQuestionObj
  | _ => false

/-!
## Module listing

`QCM.py` `get_modules` (lines 15-17):

    return [d for d in os.listdir() if os.path.isdir(d) and not d.startswith(".")]

`test.py` `get_modules` (lines 110-118) additionally sorts the result.
The directory scan is modelled by a list of entries with their name,
directory flag, and contained file names.
-/

/-- File and directory names are modelled as character sequences
(Python's lexicographic string order is the lexicographic order on code
points; Lean's `String` primitives do not compute in the kernel). -/
abbrev PyStr := List Char

/-- `str.startswith(pre)`. -/
def pyStartsWith (s pre : PyStr) : Bool := pre.isPrefixOf s

/-- `str.endswith(suf)`. -/
def pyEndsWith (s suf : PyStr) : Bool := suf.isSuffixOf s

/-- One entry of the working directory, as `os.listdir` + `os.path.isdir`
see it.  `files` is the entry's own directory listing (empty for plain
files), used only by the specification-side lesson-file condition. -/
structure DirEntry where
  name : PyStr
  isDir : Bool
  files : List PyStr
  deriving DecidableEq, Repr

/-- `get_modules` (QCM.py lines 15-17): no sorting. -/
def get_modules (entries : List DirEntry) : List PyStr :=
  (entries.filter fun e => e.isDir && !(pyStartsWith e.name ['.'])).map DirEntry.name

/-- `get_modules` (test.py lines 110-118): the same list, sorted.
Python's stable `list.sort()` on a total order is modelled by
`insertionSort` (on a linear order any correct sort yields the same
list). -/
def get_modules_test (entries : List DirEntry) : List PyStr :=
  ((entries.filter fun e => e.isDir && !(pyStartsWith e.name ['.'])).map
    DirEntry.name).insertionSort (· ≤ ·)

/-- What the specification says `listModules` returns: only non-hidden
directories that contain at least one lesson file (a `*.json` name),
sorted.  This definition follows the specification's words, for
comparison with `get_modules`/`get_modules_test` above. -/
def listModules_spec (entries : List DirEntry) : List PyStr :=
  ((entries.filter fun e =>
      e.isDir && !(pyStartsWith e.name ['.']) &&
        e.files.any fun f => pyEndsWith f ['.', 'j', 's', 'o', 'n']).map
    DirEntry.name).insertionSort (· ≤ ·)

/-!
## Claims
-/

/-- C1: for every correct-answer set `C` and selection `S`, the scorer
returns `1.0` when `S = C`, `0.0` when `S` contains an index outside
`C`, and `|S ∩ C| / |C|` otherwise; in particular with correct `{0, 2}`,
selecting `{0}` scores `0.5`, `{0, 2}` scores `1.0`, and `{0, 1}`
scores `0.0`. -/
theorem scorer_partial_credit :
    (∀ C S : Finset ℕ,
      (S = C → score_py C S = .ok 1) ∧
      ((S \ C).Nonempty → score_py C S = .ok 0) ∧
      (S ≠ C → S \ C = ∅ →
        score_py C S = .ok (((S ∩ C).card : ℚ) / (C.card : ℚ)))) ∧
    score_py {0, 2} {0} = .ok (1 / 2) ∧
    score_py {0, 2} {0, 2} = .ok 1 ∧
    score_py {0, 2} {0, 1} = .ok 0 := by
  have law3 : ∀ C S : Finset ℕ, S ≠ C → S \ C = ∅ →
      score_py C S = .ok (((S ∩ C).card : ℚ) / (C.card : ℚ)) := by
    intro C S hne hsd
    have hc : C.card ≠ 0 := by
      have := third_branch_nonempty hne hsd
      simpa [Finset.card_eq_zero] using this
    simp [score_py, hne, hsd, hc]
  refine ⟨fun C S => ⟨?_, ?_, law3 C S⟩, ?_, ?_, ?_⟩
  · intro h; subst h; simp [score_py]
  · intro h
    have hne : S ≠ C := by
      intro he
      rw [he] at h
      simp at h
    simp [score_py, hne, h]
  · rw [law3 {0, 2} {0} (by decide) (by decide)]
    norm_num
  · simp [score_py]
  · have h : ¬(({0, 1} : Finset ℕ) = {0, 2}) := by decide
    have h2 : (({0, 1} : Finset ℕ) \ {0, 2}).Nonempty := by decide
    simp [score_py, h, h2]

/-- Witness for `scorer_partial_credit`: its conditional laws applied at
concrete inputs. -/
theorem scorer_partial_credit_witness :
    score_py {0} {0} = .ok 1 ∧ score_py {1} {0} = .ok 0 :=
  ⟨(scorer_partial_credit.1 {0} {0}).1 rfl,
   (scorer_partial_credit.1 {1} {0}).2.1 (by decide)⟩

/-- C6 counterexample: with an empty correct set and an empty selection
the scorer does not fail — it computes the score `1.0` (the exact-match
branch fires before any division). -/
theorem scorer_empty_correct_counterexample :
    score_py ∅ ∅ = .ok 1 := by
  simp [score_py]

/-- C6 amended: the scorer never raises a division-by-zero error — for
an empty correct set the exact-match or wrong-selection branch always
fires first (returning `1.0` for an empty selection and `0.0`
otherwise); no `MalformedData` failure exists in the code. -/
theorem scorer_empty_correct_amended :
    (∀ good user : Finset ℕ, score_py good user ≠ .error .zeroDivisionError) ∧
    (∀ user : Finset ℕ, user ≠ ∅ → score_py ∅ user = .ok 0) ∧
    score_py ∅ ∅ = .ok 1 := by
  refine ⟨fun good user => ?_, fun user hu => ?_, by simp [score_py]⟩
  · rw [score_py_eq_ok]
    simp
  · have h : (user \ ∅).Nonempty := by
      rw [Finset.sdiff_empty]
      exact Finset.nonempty_iff_ne_empty.mpr hu
    simp [score_py, hu, h]

/-- Witness for `scorer_empty_correct_amended`: its laws applied at
concrete inputs. -/
theorem scorer_empty_correct_amended_witness :
    ({0} : Finset ℕ) ≠ ∅ ∧ score_py ∅ {0} = .ok 0 ∧
      score_py {0} {1} ≠ .error .zeroDivisionError :=
  ⟨by decide, scorer_empty_correct_amended.2.1 {0} (by decide),
   scorer_empty_correct_amended.1 {0} {1}⟩

lemma growLoop_noiter (target maxQ : ℕ) (sizes : List ℕ) (fuel : ℕ)
    (quotas : List ℕ) (h : ¬ quotas.sum < target) :
    growLoop target maxQ sizes fuel quotas = some quotas := by
  cases fuel <;> simp [growLoop, h]

lemma shrinkLoop_noiter (target minQ fuel : ℕ) (quotas : List ℕ)
    (h : ¬ target < quotas.sum) :
    shrinkLoop target minQ fuel quotas = some quotas := by
  cases fuel <;> simp [shrinkLoop, h]

/-- C2: over a module whose total question count is below the target
(two lessons of one question each, target 20), `build_exam` never
terminates: every per-lesson quota is already at its cap
`min(max_q, size)`, the growing pass changes nothing, and the
`while sum < target` loop spins forever (modelled by
`.error .nonTermination` at every fuel).  No `InsufficientQuestions`
error exists in the code. -/
theorem build_exam_shortfall_diverges :
    ∀ (fuel : ℕ) (shuf : List ℕ → List ℕ) (samp : List ℕ → ℕ → Option (List ℕ)),
      build_exam shuf samp [[0], [1]] 20 fuel = .error .nonTermination := by
  intro fuel shuf samp
  have hstall : ∀ f, growLoop 20 5 [1, 1] f [5, 5] = none :=
    growLoop_stall 20 5 [1, 1] [5, 5] (by decide) (by decide)
  simp only [build_exam]
  norm_num [pyRound]
  rw [hstall fuel]

/-- Three pairwise-disjoint ten-question lesson banks (question identity
is irrelevant to the sampler, which is generic in the element type). -/
def bankA : List ℕ := List.range 10

def bankB : List ℕ := (List.range 10).map (· + 10)

def bankC : List ℕ := (List.range 10).map (· + 20)

lemma bankB_disjoint_bankA : ∀ a : ℕ, a ∈ bankB → a ∉ bankA := by
  intro a h
  simp only [bankB, bankA, List.mem_map, List.mem_range] at *
  omega

lemma bankC_disjoint_bankA : ∀ a : ℕ, a ∈ bankC → a ∉ bankA := by
  intro a h
  simp only [bankC, bankA, List.mem_map, List.mem_range] at *
  omega

lemma bankA_disjoint_bankB : ∀ a : ℕ, a ∈ bankA → a ∉ bankB := by
  intro a h
  simp only [bankC, bankA, bankB, List.mem_map, List.mem_range] at *
  omega

lemma bankC_disjoint_bankB : ∀ a : ℕ, a ∈ bankC → a ∉ bankB := by
  intro a h
  simp only [bankC, bankB, List.mem_map, List.mem_range] at *
  omega

lemma bankA_disjoint_bankC : ∀ a : ℕ, a ∈ bankA → a ∉ bankC := by
  intro a h
  simp only [bankC, bankA, List.mem_map, List.mem_range] at *
  omega

lemma bankB_disjoint_bankC : ∀ a : ℕ, a ∈ bankB → a ∉ bankC := by
  intro a h
  simp only [bankC, bankB, List.mem_map, List.mem_range] at *
  omega

/-- C3 counterexample: `build_exam` at target 20 over three lessons of
ten questions each does not return an exam at all — the quota clamp
caps every lesson at 5 (sum 15 < 20) and the adjustment loop diverges
(here run with fuel 100). -/
theorem build_exam_20_of_30_counterexample :
    build_exam id takeSample [bankA, bankB, bankC] 20 100 =
      .error .nonTermination := by
  have hstall : ∀ f, growLoop 20 5 [10, 10, 10] f [5, 5, 5] = none :=
    growLoop_stall 20 5 [10, 10, 10] [5, 5, 5] (by decide) (by decide)
  simp only [build_exam]
  norm_num [pyRound, bankA, bankB, bankC]
  rw [hstall 100]

/-- C3 amended: `build_exam` at target 20 over lessons of sizes
`[10, 10, 10]` cannot return 20 questions — every quota clamps to the
cap 5 (sum 15), the growing loop can no longer make progress, and the
call loops forever; at target 15 over the same module it returns exactly
15 questions with every lesson contributing exactly 5 (within the
claimed 1..5 band), for any shuffler and sampler meeting the
`random.shuffle` / `random.sample` contracts. -/
theorem build_exam_quota_cap_amended :
    (∀ (fuel : ℕ) (shuf : List ℕ → List ℕ) (samp : List ℕ → ℕ → Option (List ℕ)),
      build_exam shuf samp [bankA, bankB, bankC] 20 fuel = .error .nonTermination) ∧
    (∀ (fuel : ℕ) (shuf : List ℕ → List ℕ) (samp : List ℕ → ℕ → Option (List ℕ)),
      (∀ l : List ℕ, (shuf l).Perm l) →
      (∀ (l : List ℕ) (n : ℕ), n ≤ l.length →
        ∃ r, samp l n = some r ∧ r.length = n ∧ r.Subperm l) →
      ∃ res, build_exam shuf samp [bankA, bankB, bankC] 15 fuel = .ok res ∧
        res.length = 15 ∧
        res.countP (fun x => decide (x ∈ bankA)) = 5 ∧
        res.countP (fun x => decide (x ∈ bankB)) = 5 ∧
        res.countP (fun x => decide (x ∈ bankC)) = 5) := by
  have hA : bankA.length = 10 := by decide
  have hB : bankB.length = 10 := by decide
  have hC : bankC.length = 10 := by decide
  constructor
  · intro fuel shuf samp
    have hstall : ∀ f, growLoop 20 5 [10, 10, 10] f [5, 5, 5] = none :=
      growLoop_stall 20 5 [10, 10, 10] [5, 5, 5] (by decide) (by decide)
    simp only [build_exam, List.map_cons, List.map_nil, hA, hB, hC]
    norm_num [pyRound]
    rw [hstall fuel]
  · intro fuel shuf samp hshuf hsamp
    obtain ⟨r1, hr1, hl1, hs1⟩ := hsamp bankA 5 (by rw [hA]; norm_num)
    obtain ⟨r2, hr2, hl2, hs2⟩ := hsamp bankB 5 (by rw [hB]; norm_num)
    obtain ⟨r3, hr3, hl3, hs3⟩ := hsamp bankC 5 (by rw [hC]; norm_num)
    simp only [build_exam, List.map_cons, List.map_nil, hA, hB, hC]
    norm_num [pyRound]
    have hsAll : sampleAll samp [bankA, bankB, bankC] [5, 5, 5] =
        some (r1 ++ (r2 ++ (r3 ++ []))) := by
      simp only [sampleAll, hr1, hr2, hr3]
    simp only [growLoop_noiter 15 5 [10, 10, 10] fuel [5, 5, 5] (by norm_num),
      shrinkLoop_noiter 15 1 fuel [5, 5, 5] (by norm_num), hsAll]
    refine ⟨_, rfl, ?_, ?_, ?_, ?_⟩
    · rw [(hshuf _).length_eq]
      simp [hl1, hl2, hl3]
    · rw [List.Perm.countP_eq _ (hshuf _)]
      simp only [List.countP_append]
      have c1 : r1.countP (fun x => decide (x ∈ bankA)) = r1.length :=
        List.countP_eq_length.mpr fun a ha => decide_eq_true (hs1.subset ha)
      have c2 : r2.countP (fun x => decide (x ∈ bankA)) = 0 :=
        List.countP_eq_zero.mpr fun a ha => by
          simpa using bankB_disjoint_bankA a (hs2.subset ha)
      have c3 : r3.countP (fun x => decide (x ∈ bankA)) = 0 :=
        List.countP_eq_zero.mpr fun a ha => by
          simpa using bankC_disjoint_bankA a (hs3.subset ha)
      simp [c1, c2, c3, hl1]
    · rw [List.Perm.countP_eq _ (hshuf _)]
      simp only [List.countP_append]
      have c1 : r1.countP (fun x => decide (x ∈ bankB)) = 0 :=
        List.countP_eq_zero.mpr fun a ha => by
          simpa using bankA_disjoint_bankB a (hs1.subset ha)
      have c2 : r2.countP (fun x => decide (x ∈ bankB)) = r2.length :=
        List.countP_eq_length.mpr fun a ha => decide_eq_true (hs2.subset ha)
      have c3 : r3.countP (fun x => decide (x ∈ bankB)) = 0 :=
        List.countP_eq_zero.mpr fun a ha => by
          simpa using bankC_disjoint_bankB a (hs3.subset ha)
      simp [c1, c2, c3, hl2]
    · rw [List.Perm.countP_eq _ (hshuf _)]
      simp only [List.countP_append]
      have c1 : r1.countP (fun x => decide (x ∈ bankC)) = 0 :=
        List.countP_eq_zero.mpr fun a ha => by
          simpa using bankA_disjoint_bankC a (hs1.subset ha)
      have c2 : r2.countP (fun x => decide (x ∈ bankC)) = 0 :=
        List.countP_eq_zero.mpr fun a ha => by
          simpa using bankB_disjoint_bankC a (hs2.subset ha)
      have c3 : r3.countP (fun x => decide (x ∈ bankC)) = r3.length :=
        List.countP_eq_length.mpr fun a ha => decide_eq_true (hs3.subset ha)
      simp [c1, c2, c3, hl3]

/-- Witness for `build_exam_quota_cap_amended`: its sampler/shuffler
contract hypotheses hold for the identity shuffler and prefix sampler,
and the resulting target-15 exam has 15 questions. -/
theorem build_exam_quota_cap_amended_witness :
    build_exam id takeSample [bankA, bankB, bankC] 15 0 =
      .ok (bankA.take 5 ++ (bankB.take 5 ++ (bankC.take 5 ++ []))) ∧
    (bankA.take 5 ++ (bankB.take 5 ++ (bankC.take 5 ++ []))).length = 15 := by
  have heval : build_exam id takeSample [bankA, bankB, bankC] 15 0 =
      .ok (bankA.take 5 ++ (bankB.take 5 ++ (bankC.take 5 ++ []))) := by rfl
  obtain ⟨res, h1, h2, -, -, -⟩ :=
    build_exam_quota_cap_amended.2 0 id takeSample
      (fun l => List.Perm.refl l) (fun l n h => takeSample_spec l n h)
  rw [heval] at h1
  injection h1 with h
  subst h
  exact ⟨heval, h2⟩

/-- C7: on a module with exactly one lesson, `build_exam` takes the
single-lesson branch: it shuffles the bank and returns its first
`min(target, size)` questions — all drawn from that lesson and, when the
bank has no duplicate questions, pairwise distinct. -/
theorem build_exam_single_lesson :
    ∀ (α : Type) (bank : List α) (shuf : List α → List α)
      (samp : List α → ℕ → Option (List α)) (target fuel : ℕ),
      (shuf bank).Perm bank → bank.Nodup →
      ∃ res, build_exam shuf samp [bank] target fuel = .ok res ∧
        res.length = min target bank.length ∧
        (∀ x ∈ res, x ∈ bank) ∧ res.Nodup := by
  intro α bank shuf samp target fuel hperm hnodup
  refine ⟨(shuf bank).take (min target (shuf bank).length), rfl, ?_, ?_, ?_⟩
  · rw [List.length_take, hperm.length_eq]
    omega
  · intro x hx
    exact hperm.subset (List.take_subset _ _ hx)
  · exact (hperm.nodup_iff.mpr hnodup).sublist (List.take_sublist _ _)

/-- Witness for `build_exam_single_lesson` at a concrete three-question
lesson and target 2. -/
theorem build_exam_single_lesson_witness :
    (id ([0, 1, 2] : List ℕ)).Perm [0, 1, 2] ∧ ([0, 1, 2] : List ℕ).Nodup ∧
    build_exam id takeSample [[0, 1, 2]] 2 0 = .ok [0, 1] ∧
    ([0, 1] : List ℕ).length = min 2 ([0, 1, 2] : List ℕ).length ∧
    ([0, 1] : List ℕ).Nodup := by
  have heval : build_exam id takeSample [([0, 1, 2] : List ℕ)] 2 0 = .ok [0, 1] := by rfl
  obtain ⟨res, h1, h2, -, h4⟩ :=
    build_exam_single_lesson ℕ [0, 1, 2] id takeSample 2 0
      (List.Perm.refl _) (by decide)
  rw [heval] at h1
  injection h1 with h
  subst h
  exact ⟨List.Perm.refl _, by decide, heval, h2, h4⟩

/-- C10: with more than one lesson and one lesson smaller than the
minimum quota (here: an empty lesson next to a ten-question one, target
5), `build_exam` assigns the small lesson the quota `min_q = 1`, which
exceeds its bank size 0, and the sampling step then raises
`ValueError: sample larger than population` instead of returning a bank
or a reported error. -/
theorem build_exam_small_lesson_value_error :
    ∀ (fuel : ℕ) (shuf : List ℕ → List ℕ) (samp : List ℕ → ℕ → Option (List ℕ)),
      1 ≤ fuel →
      (∀ (l : List ℕ) (n : ℕ), l.length < n → samp l n = none) →
      max 1 (min 5 (pyRound (([] : List ℕ).length * 5) 10)) = 1 ∧
      shrinkLoop 5 1 fuel [1, 5] = some [1, 4] ∧
      build_exam shuf samp [[], bankA] 5 fuel = .error .valueError := by
  intro fuel shuf samp hfuel hnone
  obtain ⟨f, rfl⟩ : ∃ f, fuel = f + 1 := ⟨fuel - 1, by omega⟩
  have hA : bankA.length = 10 := by decide
  have hshr : shrinkLoop 5 1 (f + 1) [1, 5] = some [1, 4] := by
    have hpass : shrinkPass 5 1 [1, 5] = [1, 4] := by decide
    simp [shrinkLoop, hpass, shrinkLoop_noiter 5 1 f [1, 4] (by norm_num)]
  have hnil : samp [] 1 = none := hnone [] 1 (by decide)
  have hsAll : sampleAll samp [[], bankA] [1, 4] = none := by
    simp [sampleAll, hnil]
  refine ⟨by decide, hshr, ?_⟩
  simp only [build_exam, List.map_cons, List.map_nil, List.length_nil, hA]
  norm_num [pyRound]
  simp only [growLoop_noiter 5 5 [0, 10] (f + 1) [1, 5] (by norm_num), hshr, hsAll]

/-- Witness for `build_exam_small_lesson_value_error` at fuel 1 with the
prefix sampler. -/
theorem build_exam_small_lesson_value_error_witness :
    (1 : ℕ) ≤ 1 ∧ build_exam id takeSample [[], bankA] 5 1 = .error .valueError :=
  ⟨le_refl 1,
   (build_exam_small_lesson_value_error 1 id takeSample (le_refl 1)
     (fun l n h => takeSample_none l n h)).2.2⟩

/-- The `scores` list after the first `k` questions have been advanced
past: positions below `k` hold their recorded score, the rest are
`None`. -/
def scoresAfter (qcm : List Question) (chk : ℕ → ℕ → Bool) (order : List ℕ)
    (N k : ℕ) : List (Option ℚ) :=
  (List.range N).map fun i => if i < k then some (scoreAt qcm chk order i) else none

/-- The session state after the begin step plus `k` forward advances. -/
def stateAfter (qcm : List Question) (chk : ℕ → ℕ → Bool) (order : List ℕ)
    (k : ℕ) : QState :=
  { order := order
    idx := (k : ℤ)
    scores := scoresAfter qcm chk order qcm.length k
    showFlag := false
    finished := decide (qcm.length ≤ k) }

lemma scoresAfter_zero (qcm : List Question) (chk : ℕ → ℕ → Bool)
    (order : List ℕ) (N : ℕ) :
    scoresAfter qcm chk order N 0 = List.replicate N none := by
  simp [scoresAfter, List.map_const']

lemma scoresAfter_set (qcm : List Question) (chk : ℕ → ℕ → Bool)
    (order : List ℕ) (N k : ℕ) :
    (scoresAfter qcm chk order N k).set k (some (scoreAt qcm chk order k)) =
      scoresAfter qcm chk order N (k + 1) := by
  apply List.ext_getElem
  · simp [scoresAfter]
  · intro i h1 h2
    simp only [scoresAfter, List.length_set, List.length_map, List.length_range] at h1 h2
    rw [List.getElem_set]
    simp only [scoresAfter, List.getElem_map, List.getElem_range]
    by_cases hik : k = i
    · subst hik
      simp
    · have : (i < k) = (i < k + 1) := by
        apply propext
        constructor <;> intro <;> omega
      simp [hik, this]

/-- The begin step (`next_q` from the freshly reset state with
`idx = -1`) lands in position 0 with nothing recorded. -/
lemma next_q_reset (qcm : List Question) (chk : ℕ → ℕ → Bool) (order : List ℕ) :
    next_q qcm chk (reset_quiz order qcm.length) = stateAfter qcm chk order 0 := by
  unfold next_q reset_quiz stateAfter
  dsimp only
  have hguard : ¬(0 ≤ (-1 : ℤ) ∧ (-1 : ℤ) < (qcm.length : ℤ)) := by
    intro h
    omega
  rw [if_neg hguard]
  dsimp only
  rw [scoresAfter_zero]
  split
  · rename_i h
    have h0 : qcm.length ≤ 0 := by omega
    simp [h0]
  · rename_i h
    have h0 : ¬qcm.length ≤ 0 := by omega
    simp [h0]

/-- One forward advance from position `k < N` records position `k`'s
score and moves to position `k + 1`. -/
lemma next_q_stateAfter (qcm : List Question) (chk : ℕ → ℕ → Bool)
    (order : List ℕ) (k : ℕ) (hk : k < qcm.length) :
    next_q qcm chk (stateAfter qcm chk order k) = stateAfter qcm chk order (k + 1) := by
  unfold next_q record_score stateAfter
  dsimp only
  have hguard : 0 ≤ ((k : ℤ)) ∧ ((k : ℤ)) < (qcm.length : ℤ) := ⟨by omega, by omega⟩
  rw [if_pos hguard]
  dsimp only
  have htn : ((k : ℤ)).toNat = k := by omega
  rw [htn, scoresAfter_set qcm chk order qcm.length k]
  by_cases hlast : qcm.length ≤ k + 1
  · have h1 : ((qcm.length : ℤ) ≤ (k : ℤ) + 1) := by omega
    simp [h1, hlast]
  · have h1 : ¬((qcm.length : ℤ) ≤ (k : ℤ) + 1) := by omega
    have h2 : decide (qcm.length ≤ k) = false := by
      simp
      omega
    have h3 : decide (qcm.length ≤ k + 1) = false := by
      simp
      omega
    simp [h1, h2, h3]

lemma iterate_next_q (qcm : List Question) (chk : ℕ → ℕ → Bool)
    (order : List ℕ) (k : ℕ) (hk : k ≤ qcm.length) :
    (next_q qcm chk)^[k] (stateAfter qcm chk order 0) = stateAfter qcm chk order k := by
  induction k with
  | zero => rfl
  | succ n ih =>
    rw [Function.iterate_succ_apply', ih (by omega),
      next_q_stateAfter qcm chk order n (by omega)]

lemma final_score_stateAfter (qcm : List Question) (chk : ℕ → ℕ → Bool)
    (order : List ℕ) :
    final_score (stateAfter qcm chk order qcm.length) =
      ((List.range qcm.length).map (scoreAt qcm chk order)).sum := by
  unfold final_score stateAfter scoresAfter
  dsimp only
  have hmap : (List.range qcm.length).map
        (fun i => if i < qcm.length then some (scoreAt qcm chk order i) else none) =
      (List.range qcm.length).map (fun i => some (scoreAt qcm chk order i)) := by
    apply List.map_congr_left
    intro a ha
    simp [List.mem_range.mp ha]
  rw [hmap, List.filterMap_map]
  rw [show (id ∘ fun i => some (scoreAt qcm chk order i)) =
    some ∘ scoreAt qcm chk order from rfl]
  rw [List.filterMap_eq_map]

/-- C4: starting a session over an `N`-question bank (the begin step
lands on position 0), calling `advance(+1)` — that is, `next_q` — `N`
times reaches `Finished` exactly on the `N`-th call, and the final score
is then the sum of the `N` recorded per-question scores (in particular
every `scores` entry is non-null and `final_score` sums them all). -/
theorem session_finished_on_nth_advance :
    ∀ (qcm : List Question) (chk : ℕ → ℕ → Bool) (order : List ℕ),
      (∀ k, k < qcm.length →
        ((next_q qcm chk)^[k] (next_q qcm chk (reset_quiz order qcm.length))).finished
          = false) ∧
      ((next_q qcm chk)^[qcm.length]
          (next_q qcm chk (reset_quiz order qcm.length))).finished = true ∧
      final_score ((next_q qcm chk)^[qcm.length]
          (next_q qcm chk (reset_quiz order qcm.length))) =
        ((List.range qcm.length).map (scoreAt qcm chk order)).sum := by
  intro qcm chk order
  refine ⟨fun k hk => ?_, ?_, ?_⟩
  · rw [next_q_reset, iterate_next_q qcm chk order k (by omega)]
    simp only [stateAfter, decide_eq_false_iff_not]
    omega
  · rw [next_q_reset, iterate_next_q qcm chk order qcm.length (le_refl _)]
    simp [stateAfter]
  · rw [next_q_reset, iterate_next_q qcm chk order qcm.length (le_refl _),
      final_score_stateAfter]

/-- A two-question bank and an all-unchecked checkbox state, used as
concrete witnesses for the session-machine theorems. -/
def qcmW : List Question :=
  [⟨"q1", ["a", "b"], [0]⟩, ⟨"q2", ["a", "b"], [1]⟩]

def chkW : ℕ → ℕ → Bool := fun _ _ => false

/-- Witness for `session_finished_on_nth_advance` on the concrete
two-question bank: not finished before the second advance, finished on
it, and the final score sums the recorded scores. -/
theorem session_finished_on_nth_advance_witness :
    (1 : ℕ) < qcmW.length ∧
    ((next_q qcmW chkW)^[1] (next_q qcmW chkW (reset_quiz [0, 1] qcmW.length))).finished
      = false ∧
    ((next_q qcmW chkW)^[qcmW.length]
        (next_q qcmW chkW (reset_quiz [0, 1] qcmW.length))).finished = true ∧
    final_score ((next_q qcmW chkW)^[qcmW.length]
        (next_q qcmW chkW (reset_quiz [0, 1] qcmW.length))) =
      ((List.range qcmW.length).map (scoreAt qcmW chkW [0, 1])).sum :=
  ⟨by decide,
   (session_finished_on_nth_advance qcmW chkW [0, 1]).1 1 (by decide),
   (session_finished_on_nth_advance qcmW chkW [0, 1]).2.1,
   (session_finished_on_nth_advance qcmW chkW [0, 1]).2.2⟩

/-- Writing back the value already stored at an index leaves a list
unchanged. -/
lemma set_self_of_getElem (l : List α) (k : ℕ) (v : α) (h : l[k]? = some v) :
    l.set k v = l := by
  induction l generalizing k with
  | nil => simp at h
  | cons a t ih =>
    cases k with
    | zero =>
      simp only [List.getElem?_cons_zero, Option.some.injEq] at h
      simp [List.set, h]
    | succ n =>
      simp only [List.getElem?_cons_succ] at h
      simp [List.set, ih n h]

/-- C8: from any unfinished state at position `p > 0` whose stored score
for position `p - 1` is consistent with the (unchanged) checkbox state,
`prev_q` followed by `next_q` returns to position `p` with the entire
`scores` list — in particular the entries of `p` and of the
intermediately visited `p - 1` — unchanged. -/
theorem back_then_forward_preserves :
    ∀ (qcm : List Question) (chk : ℕ → ℕ → Bool) (st : QState),
      0 < st.idx → st.idx < (qcm.length : ℤ) →
      st.scores[st.idx.toNat - 1]? =
        some (some (scoreAt qcm chk st.order (st.idx.toNat - 1))) →
      (next_q qcm chk (prev_q st)).idx = st.idx ∧
      (next_q qcm chk (prev_q st)).scores = st.scores ∧
      (next_q qcm chk (prev_q st)).finished = st.finished := by
  intro qcm chk st h0 hN hsc
  have hprev : prev_q st = { st with idx := st.idx - 1, showFlag := true } := by
    unfold prev_q
    rw [if_pos h0]
  rw [hprev]
  unfold next_q record_score
  dsimp only
  have hguard : 0 ≤ st.idx - 1 ∧ st.idx - 1 < (qcm.length : ℤ) := ⟨by omega, by omega⟩
  rw [if_pos hguard]
  dsimp only
  have htn : (st.idx - 1).toNat = st.idx.toNat - 1 := by omega
  rw [htn]
  rw [set_self_of_getElem st.scores (st.idx.toNat - 1) _ hsc]
  have hfin : ¬((qcm.length : ℤ) ≤ st.idx - 1 + 1) := by omega
  rw [if_neg hfin]
  refine ⟨by dsimp only; omega, rfl, rfl⟩

/-- An all-first-checkbox selection and a mid-session state used as the
concrete witness for `back_then_forward_preserves`. -/
def chkW2 : ℕ → ℕ → Bool := fun _ j => j == 0

def stW : QState :=
  { order := [0, 1], idx := 1, scores := [some 1, none], showFlag := false,
    finished := false }

/-- Witness for `back_then_forward_preserves` at the concrete state
`stW`: the navigation round trip preserves position and scores. -/
theorem back_then_forward_preserves_witness :
    (0 : ℤ) < stW.idx ∧ stW.idx < (qcmW.length : ℤ) ∧
    (next_q qcmW chkW2 (prev_q stW)).idx = stW.idx ∧
    (next_q qcmW chkW2 (prev_q stW)).scores = stW.scores :=
  ⟨by decide, by decide,
   (back_then_forward_preserves qcmW chkW2 stW (by decide) (by decide) (by decide)).1,
   (back_then_forward_preserves qcmW chkW2 stW (by decide) (by decide) (by decide)).2.1⟩

/-- A parsed lesson file whose content violates the Question schema (an
array holding one empty object), and file stores for the loader
witnesses. -/
def badBankContent : JValue := .arr [.obj []]

def badFs : String → Option (Option JValue) := fun _ => some (some badBankContent)

def missingFs : String → Option (Option JValue) := fun _ => none

/-- C5 counterexample: on a file that parses to a JSON array violating
the Question schema, `load_qcm` does not fail with any `MalformedData`
error — it returns the value untouched (no schema validation exists in
the source). -/
theorem load_qcm_no_validation_counterexample :
    isWellFormedBank badBankContent = false ∧
    load_qcm badFs "Biochimie/lesson.json" = .ok badBankContent :=
  ⟨rfl, rfl⟩

/-- C5 amended: `QCM.py`'s `load_qcm` propagates `FileNotFoundError`
when the path does not exist and `json.JSONDecodeError` when the content
is not valid JSON, but performs no schema validation — any successfully
parsed JSON value is returned as-is; `test.py`'s variant instead returns
the empty list on either failure.  Both are pure (no side effects). -/
theorem load_qcm_amended :
    ∀ (fs : String → Option (Option JValue)) (path : String),
      (fs path = none →
        load_qcm fs path = .error .fileNotFound ∧ load_qcm_test fs path = .arr []) ∧
      (fs path = some none →
        load_qcm fs path = .error .jsonDecodeError ∧ load_qcm_test fs path = .arr []) ∧
      (∀ v, fs path = some (some v) →
        load_qcm fs path = .ok v ∧ load_qcm_test fs path = v) := by
  intro fs path
  refine ⟨fun h => ?_, fun h => ?_, fun v h => ?_⟩ <;>
    simp [load_qcm, load_qcm_test, h]

/-- Witness for `load_qcm_amended` on concrete file stores. -/
theorem load_qcm_amended_witness :
    missingFs "x.json" = none ∧
    load_qcm missingFs "x.json" = .error .fileNotFound ∧
    badFs "y.json" = some (some badBankContent) ∧
    load_qcm_test badFs "y.json" = badBankContent :=
  ⟨rfl, ((load_qcm_amended missingFs "x.json").1 rfl).1, rfl,
   ((load_qcm_amended badFs "y.json").2.2 badBankContent rfl).2⟩

/-- A visible directory containing no lesson file. -/
def entriesW : List DirEntry := [⟨['m'], true, []⟩]

/-- C9 counterexample: a visible directory with no lesson file is
returned by `get_modules` (test.py variant shown) even though the
specification's `listModules` would exclude it. -/
theorem get_modules_lessonless_counterexample :
    get_modules_test entriesW = [['m']] ∧ listModules_spec entriesW = [] := by
  constructor <;> decide

/-- C9 amended: `get_modules` returns every non-hidden directory under
the working root regardless of whether it contains lesson files —
`test.py`'s variant sorts the names ascending, `QCM.py`'s returns them
in listing order (same members, unsorted). -/
theorem get_modules_amended :
    ∀ entries : List DirEntry,
      List.Sorted (· ≤ ·) (get_modules_test entries) ∧
      (get_modules_test entries).Perm (get_modules entries) ∧
      ∀ x : PyStr, x ∈ get_modules entries ↔
        ∃ e ∈ entries, e.isDir = true ∧ pyStartsWith e.name ['.'] = false ∧
          e.name = x := by
  intro entries
  refine ⟨List.sorted_insertionSort _ _, List.perm_insertionSort _ _, fun x => ?_⟩
  simp only [get_modules, List.mem_map, List.mem_filter]
  constructor
  · rintro ⟨e, ⟨he, hcond⟩, rfl⟩
    rw [Bool.and_eq_true, Bool.not_eq_true'] at hcond
    exact ⟨e, he, hcond.1, hcond.2, rfl⟩
  · rintro ⟨e, he, hdir, hhid, rfl⟩
    exact ⟨e, ⟨he, by rw [Bool.and_eq_true, Bool.not_eq_true']; exact ⟨hdir, hhid⟩⟩, rfl⟩

/-- Witness for `get_modules_amended`: the lessonless visible directory
is a member of the returned module list. -/
theorem get_modules_amended_witness :
    (['m'] : PyStr) ∈ get_modules entriesW :=
  ((get_modules_amended entriesW).2.2 ['m']).mpr
    ⟨⟨['m'], true, []⟩, by decide, rfl, by decide, rfl⟩
